import Mathlib

/-!
Verification of the simple-http-service repository (a TypeScript HTTP client
wrapper).  The source is shallowly embedded: JavaScript strings are modelled as
lists of characters, JavaScript runtime values reachable in this code base are
modelled by the inductive type Jv, and the external runtime primitives the code
calls (JSON.parse, JSON.stringify, the WHATWG Headers class and URL resolution)
are modelled by executable Lean functions, each documented at its definition.
The repository contains several historical variants of the same class; a
definition's doc comment names the variant and source location it embeds.
-/

/-- A JavaScript string, modelled as its list of characters. -/
abbrev Str := List Char

/-- Model of String.prototype.toUpperCase, character-wise. -/
def upperStr (s : Str) : Str := s.map Char.toUpper

/-- Model of String.prototype.toLowerCase, character-wise. -/
def lowerStr (s : Str) : Str := s.map Char.toLower

/-- JSON/JavaScript whitespace characters. -/
def isWsChar (c : Char) : Bool :=
  c = ' ' || c = '\n' || c = '\t' || c = '\r'

/-- Drop leading whitespace. -/
def skipWs (s : Str) : Str := s.dropWhile isWsChar

/-- The JavaScript runtime values that can flow through this code base:
JSON-like data (null, booleans, integer numbers, strings, arrays, objects),
Error instances carrying a message, and fetch Response objects carrying a
status and a body text. -/
inductive Jv where
  | vnull : Jv
  | vbool : Bool → Jv
  | vnum : Int → Jv
  | vstr : Str → Jv
  | varr : List Jv → Jv
  | vobj : List (Str × Jv) → Jv
  | verr : Str → Jv
  | vresp : Nat → Str → Jv

/-- Parse a JSON string body after the opening quote: plain characters up to
the closing quote, with backslash escapes for quote and backslash.  Returns the
decoded characters and the rest of the input.  Modelled from the spec: the JSON
string grammar used by the runtime JSON.parse, restricted to these two escapes. -/
def parseQuoted : Str → Option (Str × Str)
  | [] => none
  | c :: rest =>
    if c = '"' then some ([], rest)
    else if c = '\\' then
      match rest with
      | [] => none
      | d :: rest2 =>
        if d = '"' || d = '\\' then
          match parseQuoted rest2 with
          | some (t, r) => some (d :: t, r)
          | none => none
        else none
    else
      match parseQuoted rest with
      | some (t, r) => some (c :: t, r)
      | none => none

/-- Numeric value of a nonempty run of decimal digits. -/
def digitsVal (ds : Str) : Nat :=
  ds.foldl (fun a c => a * 10 + (c.toNat - '0'.toNat)) 0

/-- Parse an optionally negated integer numeral.  Modelled from the spec: the
JSON number grammar of the runtime JSON.parse, restricted to integers. -/
def parseNum (s : Str) : Option (Jv × Str) :=
  match s with
  | '-' :: s1 =>
    let ds := s1.takeWhile Char.isDigit
    if ds.isEmpty then none
    else some (.vnum (-(digitsVal ds : Int)), s1.drop ds.length)
  | _ =>
    let ds := s.takeWhile Char.isDigit
    if ds.isEmpty then none
    else some (.vnum (digitsVal ds : Int), s.drop ds.length)

mutual

/-- Fuel-indexed recursive-descent JSON value parser.  Modelled from the spec:
the runtime JSON.parse grammar (null, booleans, integer numerals, strings
without exotic escapes, arrays, objects).  Returns the value and the remaining
input, or none when the input is not valid JSON. -/
def parseV : Nat → Str → Option (Jv × Str)
  | 0, _ => none
  | Nat.succ f, s0 =>
    let s := skipWs s0
    match s with
    | [] => none
    | c :: rest =>
      if c = 'n' then
        if ("ull".data).isPrefixOf rest then some (.vnull, rest.drop 3) else none
      else if c = 't' then
        if ("rue".data).isPrefixOf rest then some (.vbool true, rest.drop 3) else none
      else if c = 'f' then
        if ("alse".data).isPrefixOf rest then some (.vbool false, rest.drop 4) else none
      else if c = '"' then
        match parseQuoted rest with
        | some (t, r) => some (.vstr t, r)
        | none => none
      else if c = '\x7b' then
        match skipWs rest with
        | '\x7d' :: r => some (.vobj [], r)
        | r => match parseMembers f r with
          | some (ms, r2) => some (.vobj ms, r2)
          | none => none
      else if c = '[' then
        match skipWs rest with
        | ']' :: r => some (.varr [], r)
        | r => match parseElems f r with
          | some (xs, r2) => some (.varr xs, r2)
          | none => none
      else if c = '-' || c.isDigit then parseNum s
      else none

/-- Parse the nonempty member list of a JSON object, up to and including the
closing brace. -/
def parseMembers : Nat → Str → Option (List (Str × Jv) × Str)
  | 0, _ => none
  | Nat.succ f, s0 =>
    match skipWs s0 with
    | '"' :: rest =>
      match parseQuoted rest with
      | some (k, r1) =>
        (match skipWs r1 with
         | ':' :: r3 =>
           match parseV f r3 with
           | some (v, r4) =>
             (match skipWs r4 with
              | ',' :: r6 =>
                (match parseMembers f r6 with
                 | some (ms, r7) => some ((k, v) :: ms, r7)
                 | none => none)
              | '\x7d' :: r6 => some ([(k, v)], r6)
              | _ => none)
           | none => none
         | _ => none)
      | none => none
    | _ => none

/-- Parse the nonempty element list of a JSON array, up to and including the
closing bracket. -/
def parseElems : Nat → Str → Option (List Jv × Str)
  | 0, _ => none
  | Nat.succ f, s0 =>
    match parseV f s0 with
    | some (v, r1) =>
      (match skipWs r1 with
       | ',' :: r2 =>
         (match parseElems f r2 with
          | some (xs, r3) => some (v :: xs, r3)
          | none => none)
       | ']' :: r2 => some ([v], r2)
       | _ => none)
    | none => none

end

/-- Model of the runtime JSON.parse: some value when the whole input is valid
JSON, none when JSON.parse would throw a SyntaxError. -/
def jsonParse (s : Str) : Option Jv :=
  match parseV (s.length + 1) s with
  | some (v, rest) => if skipWs rest = [] then some v else none
  | none => none

/-- Model of the message text of the SyntaxError thrown by the runtime
JSON.parse on invalid input; the stand-in carries the offending text, as the
real message is derived from it.  Never itself valid JSON. -/
def jsonErrMsg (s : Str) : Str := "Unexpected token in JSON: ".data ++ s

/-- JSON string escaping of one character (quote and backslash). -/
def escChar (c : Char) : Str :=
  if c = '"' || c = '\\' then ['\\', c] else [c]

/-- JSON string escaping of a whole string. -/
def escStr (s : Str) : Str := s.foldr (fun c acc => escChar c ++ acc) []

/-- A string as JSON source text: wrapped in quotes, with escaping.  This is
what the runtime JSON.stringify produces for a string value. -/
def quoteStr (s : Str) : Str := '"' :: (escStr s ++ ['"'])

mutual

/-- Model of the runtime JSON.stringify on the values of Jv.  Error and
Response instances have no enumerable own properties, so JSON.stringify
renders them as an empty object, as the runtime does. -/
def stringifyVal : Jv → Str
  | .vnull => "null".data
  | .vbool true => "true".data
  | .vbool false => "false".data
  | .vnum n => (toString n).data
  | .vstr s => quoteStr s
  | .varr xs => '[' :: (stringifyElems xs ++ [']'])
  | .vobj fs => '\x7b' :: (stringifyFields fs ++ ['\x7d'])
  | .verr _ => ['\x7b', '\x7d']
  | .vresp _ _ => ['\x7b', '\x7d']

/-- Comma-separated serialization of object members. -/
def stringifyFields : List (Str × Jv) → Str
  | [] => []
  | [(k, v)] => quoteStr k ++ ':' :: stringifyVal v
  | (k, v) :: rest => quoteStr k ++ ':' :: stringifyVal v ++ ',' :: stringifyFields rest

/-- Comma-separated serialization of array elements. -/
def stringifyElems : List Jv → Str
  | [] => []
  | [x] => stringifyVal x
  | x :: rest => stringifyVal x ++ ',' :: stringifyElems rest

end

/-- Case-insensitive equality of header names, as the WHATWG Headers class
compares them.  Modelled from the spec: the Headers class used by the code is
a runtime primitive, not part of the repository. -/
def nameEq (a b : Str) : Bool := lowerStr a == lowerStr b

/-- Model of Headers.append as used by the Headers constructor: combine with an
existing entry of the same (case-insensitive) name, else add a new entry. -/
def headerAppend (hs : List (Str × Str)) (k v : Str) : List (Str × Str) :=
  if hs.any (fun e => nameEq e.1 k) then
    hs.map (fun e => if nameEq e.1 k then (e.1, e.2 ++ ", ".data ++ v) else e)
  else hs ++ [(k, v)]

/-- Model of the Headers constructor: append every entry of the init list in
order into an empty header list. -/
def headersOf (init : List (Str × Str)) : List (Str × Str) :=
  init.foldl (fun acc e => headerAppend acc e.1 e.2) []

/-- Model of Headers.set: overwrite the value of the (case-insensitive) name if
present, else add the entry. -/
def headersSet (hs : List (Str × Str)) (k v : Str) : List (Str × Str) :=
  if hs.any (fun e => nameEq e.1 k) then
    hs.map (fun e => if nameEq e.1 k then (e.1, v) else e)
  else hs ++ [(k, v)]

/-- Model of Headers.get: value of the first entry whose name matches
case-insensitively. -/
def headerGet (hs : List (Str × Str)) (k : Str) : Option Str :=
  (hs.find? (fun e => nameEq e.1 k)).map (fun e => e.2)

/-- Model of a JavaScript object-literal key assignment (exact key,
last write wins): overwrite an existing exact key, else add the entry. -/
def objSet (m : List (Str × Str)) (k v : Str) : List (Str × Str) :=
  if m.any (fun e => e.1 == k) then
    m.map (fun e => if e.1 == k then (k, v) else e)
  else m ++ [(k, v)]

/-- Model of a JavaScript object literal that spreads the entries of h after
the entries of base. -/
def objMerge (base : List (Str × Str)) : List (Str × Str) → List (Str × Str)
  | [] => base
  | e :: t => objMerge (objSet base e.1 e.2) t

/-- The header name Content-Type. -/
def ctName : Str := "Content-Type".data

/-- The header value application/json. -/
def ctJson : Str := "application/json".data

/-- Embeds handleHeaders of src/unnamed/part_000 (lines 188-193): construct a
Headers object from the caller-supplied init, then set Content-Type to
application/json with Headers.set. -/
def handleHeadersSet (headers : Option (List (Str × Str))) : List (Str × Str) :=
  headersSet (headersOf (headers.getD [])) ctName ctJson

/-- Embeds handleHeaders of src/src/SimpleHttpService.ts (lines 192-197):
construct a Headers object from the object literal that starts with the
Content-Type default and spreads the caller-supplied headers over it. -/
def handleHeadersSpread (headers : Option (List (Str × Str))) : List (Str × Str) :=
  headersOf (objMerge [(ctName, ctJson)] (headers.getD []))

/-- Embeds _removeSlashes of src/unnamed/part_000 (lines 195-199): drop one
trailing path separator if present, then one leading separator if present. -/
def removeSlashes (path : Str) : Str :=
  let p1 := if path.getLast? = some '/' then path.dropLast else path
  if p1.head? = some '/' then p1.tail else p1

/-- The normalization step as the specification words it: one leading
separator removed when the string starts with one, and one trailing separator
removed when the string ends with one. -/
def specStrip (path : Str) : Str :=
  let q := if path.head? = some '/' then path.tail else path
  if path.getLast? = some '/' then q.dropLast else q

/-- Wrap a core string in an optional leading and an optional trailing
separator; used to quantify over separator combinations. -/
def decorate (lead trail : Bool) (core : Str) : Str :=
  (if lead then ['/'] else []) ++ core ++ (if trail then ['/'] else [])

/-- No two adjacent path separators occur in the string. -/
def noDS : Str → Bool
  | [] => true
  | [_] => true
  | a :: b :: rest => !(a = '/' && b = '/') && noDS (b :: rest)

/-- Drop a single trailing separator. -/
def stripTrailing (s : Str) : Str :=
  if s.getLast? = some '/' then s.dropLast else s

/-- Model of the runtime URL constructor URL(rel, base) for the uses in this
code: base is an origin whose path is empty or the root, rel is a path-like
relative reference.  A defined base resolves rel against the origin; an
undefined base makes the constructor throw a TypeError, modelled as the error
case.  Modelled from the spec: the WHATWG URL class is a runtime primitive,
not part of the repository. -/
def urlResolve (base : Option Str) (rel : Str) : Except Unit Str :=
  match base with
  | none => .error ()
  | some b => .ok (stripTrailing b ++ (if rel.head? = some '/' then rel else '/' :: rel))

/-- The configuration object of the part_000 variant: baseUrl and baseEndpoint,
both of which can be absent at runtime. -/
structure Config where
  baseUrl : Option Str
  baseEndpoint : Option Str

/-- Embeds the URL composition of fetch in src/unnamed/part_000 (lines
157-159): normalize the configured base endpoint (defaulted to the empty
string), join it and the normalized call endpoint with one separator. -/
def relUrlV0 (cfg : Config) (endpoint : Str) : Str :=
  removeSlashes (cfg.baseEndpoint.getD []) ++ '/' :: removeSlashes endpoint

/-- The full URL produced by fetch of src/unnamed/part_000: the joined relative
URL resolved against the configured base URL. -/
def fetchUrlV0 (cfg : Config) (endpoint : Str) : Except Unit Str :=
  urlResolve cfg.baseUrl (relUrlV0 cfg endpoint)

/-- Embeds the URL composition of fetch in src/SimpleHttpService.ts (line 150):
plain string concatenation of the stored base URL and the endpoint, where an
undefined base URL is coerced to the text undefined by the JavaScript +
operator. -/
def rootFetchUrl (baseUrl : Option Str) (endpoint : Str) : Str :=
  (match baseUrl with
   | none => "undefined".data
   | some b => b) ++ endpoint

/-- The request options object of the part_000 variant (type ReqInit): an
optional method, optional headers and an optional body. -/
structure ReqInit where
  method : Option Str
  headers : Option (List (Str × Str))
  body : Option Jv

/-- Request options with every field absent. -/
def emptyInit : ReqInit := ⟨none, none, none⟩

/-- The single network request descriptor handed to the global fetch
primitive. -/
structure Request where
  url : Str
  method : Option Str
  headers : List (Str × Str)
  body : Option Str

/-- Embeds the request construction of fetch in src/unnamed/part_000 (lines
156-164): an absent configuration object makes the property access
this.config.baseEndpoint throw a TypeError (error case); otherwise the URL is
composed and resolved, the options are spread with the body replaced by its
JSON.stringify serialization (an absent body stays absent, as JSON.stringify
of undefined is undefined) and the headers replaced by the handleHeaders
result. -/
def fetchRequestV0 (cfg : Option Config) (endpoint : Str) (init : ReqInit) :
    Except Unit Request :=
  match cfg with
  | none => .error ()
  | some c =>
    (fetchUrlV0 c endpoint).map (fun u =>
      ⟨u, init.method, handleHeadersSet init.headers, init.body.map stringifyVal⟩)

/-- The option spreading performed by every verb method of part_000, for
example delete (lines 139-147): the object literal fixes the verb's method
and then spreads the caller's options over it, so a caller-supplied method
overrides the verb's. -/
def verbSpread (m : Str) (init : ReqInit) : ReqInit :=
  ⟨some (init.method.getD m), init.headers, init.body⟩

/-- The common shape of every verb method of part_000 (get, post, put, patch,
delete at lines 59-147): fix the verb's method, spread the caller's options
over it, and call the generic fetch. -/
def verbRequestV0 (m : Str) (cfg : Option Config) (endpoint : Str) (init : ReqInit) :
    Except Unit Request :=
  fetchRequestV0 cfg endpoint (verbSpread m init)

/-- Embeds delete of src/unnamed/part_000 (lines 139-147). -/
def deleteV0 (cfg : Option Config) (endpoint : Str) (init : ReqInit) :
    Except Unit Request :=
  verbRequestV0 "DELETE".data cfg endpoint init

/-- Embeds post of src/unnamed/part_000 (lines 76-86): the body parameter is
placed in the options (the options type omits body, so only method can be
overridden by the spread). -/
def postV0 (cfg : Option Config) (endpoint : Str) (body : Jv)
    (init : ReqInit) : Except Unit Request :=
  fetchRequestV0 cfg endpoint
    ⟨some (init.method.getD "POST".data), init.headers, some body⟩

/-- A fetch Response, carrying its HTTP status and its body text. -/
structure Response where
  status : Nat
  bodyText : Str
  deriving DecidableEq

/-- Model of the ok getter of the fetch Response class: status in the
inclusive range 200 to 299. -/
def respOk (r : Response) : Bool :=
  decide (200 ≤ r.status) && decide (r.status ≤ 299)

/-- Embeds handleResponse of src/unnamed/part_000 (lines 174-179): a non-ok
response is thrown as is; an ok response has its body parsed as JSON, a parse
failure throwing the SyntaxError of JSON.parse. -/
def handleResponseV0 (r : Response) : Except Jv Jv :=
  if respOk r then
    match jsonParse r.bodyText with
    | some v => .ok v
    | none => .error (.verr (jsonErrMsg r.bodyText))
  else .error (.vresp r.status r.bodyText)

/-- The outcome of fetch in src/unnamed/part_000 for a received response:
handleResponse is not wrapped in any catch, so its outcome is the call's. -/
def fetchOutcomeV0 (r : Response) : Except Jv Jv := handleResponseV0 r

/-- Embeds handleResponse of src/SimpleHttpService.ts (lines 131-136): a
non-ok response throws an Error whose message is the body text; an ok response
has its body parsed as JSON, a parse failure throwing the SyntaxError of
JSON.parse. -/
def handleResponseRoot (r : Response) : Except Jv Jv :=
  if respOk r then
    match jsonParse r.bodyText with
    | some v => .ok v
    | none => .error (.verr (jsonErrMsg r.bodyText))
  else .error (.verr r.bodyText)

/-- Embeds handleErrors of src/SimpleHttpService.ts (lines 184-192), identical
in src/unnamed/part_001 (lines 182-190): a string failure becomes a plain
object whose message field is the upper-cased string; an Error-instance
failure has its message re-parsed with JSON.parse, the parsed value replacing
it when parsing succeeds and the SyntaxError of JSON.parse replacing it when
parsing fails; every other value is rethrown unchanged. -/
def handleErrors (e : Jv) : Jv :=
  match e with
  | .vstr s => .vobj [("message".data, .vstr (upperStr s))]
  | .verr m =>
    (match jsonParse m with
     | some v => v
     | none => .verr (jsonErrMsg m))
  | _ => e

/-- The failure value is a JavaScript string (typeof e is the string
string). -/
def isStringJs : Jv → Bool
  | .vstr _ => true
  | _ => false

/-- The failure value is an Error instance (e instanceof Error). -/
def isErrorJs : Jv → Bool
  | .verr _ => true
  | _ => false

/-- The outcome of fetch in src/SimpleHttpService.ts for a received response:
the try block's handleResponse failure is caught and passed through
handleErrors, whose result is thrown. -/
def fetchOutcomeRoot (r : Response) : Except Jv Jv :=
  match handleResponseRoot r with
  | .ok v => .ok v
  | .error e => .error (handleErrors e)

/-- Dropping the last element either empties the list or preserves its head. -/
theorem head?_dropLast (l : Str) :
    l.dropLast.head? = none ∨ l.dropLast.head? = l.head? := by
  match l with
  | [] => exact Or.inl rfl
  | [a] => exact Or.inl rfl
  | a :: b :: t => exact Or.inr (by simp [List.dropLast])

/-- C8: the normalization step applied to endpoints strips exactly one leading
separator if present and exactly one trailing separator if present and changes
nothing else: for every string, _removeSlashes agrees with the specification's
formula (one leading separator removed when the string starts with one, one
trailing separator removed when it ends with one). -/
theorem c8_removeSlashes_eq_specStrip (p : Str) : removeSlashes p = specStrip p := by
  unfold removeSlashes specStrip
  by_cases hl : p.getLast? = some '/'
  · by_cases hh : p.head? = some '/'
    · cases p with
      | nil => cases hh
      | cons a t =>
        simp only [List.head?_cons, Option.some.injEq] at hh
        subst hh
        cases t with
        | nil => simp
        | cons b t2 =>
          have hl2 : ('/' :: b :: t2).dropLast = '/' :: (b :: t2).dropLast := by
            simp [List.dropLast]
          simp [hl, hl2]
    · have hd : p.dropLast.head? ≠ some '/' := by
        rcases head?_dropLast p with h | h <;> rw [h] <;> simp_all
      simp [hl, hh, hd]
  · by_cases hh : p.head? = some '/' <;> simp [hl, hh]

/-- C9 (amended): in handleErrors a plain-string failure is replaced by an
object whose message field is the string upper-cased; an Error-instance
failure has its message re-parsed with JSON.parse, the parsed value being
thrown when parsing succeeds and the SyntaxError of JSON.parse being thrown
when the message is not valid JSON. -/
theorem c9_handleErrors_normalization :
    (∀ s : Str, handleErrors (.vstr s) = .vobj [("message".data, .vstr (upperStr s))])
    ∧ (∀ m v, jsonParse m = some v → handleErrors (.verr m) = v)
    ∧ (∀ m, jsonParse m = none → handleErrors (.verr m) = .verr (jsonErrMsg m)) := by
  refine ⟨fun s => rfl, fun m v h => ?_, fun m h => ?_⟩ <;> simp [handleErrors, h]

/-- Witness for C9's amended theorem at concrete inputs. -/
theorem c9_handleErrors_normalization_witness :
    handleErrors (.vstr "abc".data) = .vobj [("message".data, .vstr (upperStr "abc".data))]
    ∧ handleErrors (.verr "null".data) = Jv.vnull
    ∧ handleErrors (.verr "oops".data) = .verr (jsonErrMsg "oops".data) :=
  ⟨c9_handleErrors_normalization.1 "abc".data,
   c9_handleErrors_normalization.2.1 "null".data Jv.vnull rfl,
   c9_handleErrors_normalization.2.2 "oops".data rfl⟩

/-- Counterexample to C9 as stated: for the Error instance whose message is the
text NOT JSON, no parsed structured value exists to be thrown (JSON.parse
fails), and handleErrors throws the SyntaxError of JSON.parse instead. -/
theorem c9_handleErrors_counterexample :
    jsonParse "NOT JSON".data = none
    ∧ handleErrors (Jv.verr "NOT JSON".data) = Jv.verr (jsonErrMsg "NOT JSON".data)
    ∧ ¬ ∃ v, jsonParse "NOT JSON".data = some v
        ∧ handleErrors (Jv.verr "NOT JSON".data) = v := by
  refine ⟨rfl, rfl, ?_⟩
  rintro ⟨v, hv, -⟩
  rw [show jsonParse "NOT JSON".data = none from rfl] at hv
  cases hv

/-- C10: handleErrors rethrows unchanged every failure value that is neither a
JavaScript string nor an Error instance; only strings and Error instances are
transformed. -/
theorem c10_handleErrors_identity_otherwise (e : Jv)
    (hs : isStringJs e = false) (he : isErrorJs e = false) :
    handleErrors e = e := by
  cases e <;> simp_all [isStringJs, isErrorJs, handleErrors]

/-- Witness for C10 at a concrete non-string non-Error value. -/
theorem c10_handleErrors_identity_otherwise_witness :
    isStringJs (Jv.vnum 7) = false ∧ isErrorJs (Jv.vnum 7) = false
    ∧ handleErrors (Jv.vnum 7) = Jv.vnum 7 :=
  ⟨rfl, rfl, c10_handleErrors_identity_otherwise (Jv.vnum 7) rfl rfl⟩

theorem nameEq_true_iff (a b : Str) : nameEq a b = true ↔ lowerStr a = lowerStr b := by
  simp [nameEq]

theorem nameEq_false_iff (a b : Str) : nameEq a b = false ↔ lowerStr a ≠ lowerStr b := by
  simp [nameEq]

theorem nameEq_refl (a : Str) : nameEq a a = true := by
  simp [nameEq]

theorem headerGet_cons (x : Str × Str) (t : List (Str × Str)) (k : Str) :
    headerGet (x :: t) k = if nameEq x.1 k = true then some x.2 else headerGet t k := by
  by_cases h : nameEq x.1 k = true <;> simp [headerGet, List.find?_cons, h]

/-- Headers.set resolves the set name to the new value. -/
theorem headerGet_set (hs : List (Str × Str)) (k v : Str) :
    headerGet (headersSet hs k v) k = some v := by
  unfold headersSet
  by_cases h : hs.any (fun e => nameEq e.1 k) = true
  · simp only [h, if_true]
    induction hs with
    | nil => simp at h
    | cons e t ih =>
      by_cases he : nameEq e.1 k = true
      · simp [headerGet, List.find?_cons, he]
      · have ht : t.any (fun e => nameEq e.1 k) = true := by
          simpa [List.any_cons, he] using h
        simpa [headerGet, List.find?_cons, he] using ih ht
  · simp only [h, if_false]
    have hall : ∀ e ∈ hs, nameEq e.1 k = false := by
      simpa [List.any_eq_true] using h
    induction hs with
    | nil => simp [headerGet, List.find?, nameEq_refl]
    | cons e t ih =>
      have h1 : nameEq e.1 k = false := hall e (List.mem_cons_self e t)
      have h2 : ∀ x ∈ t, nameEq x.1 k = false := fun x hx => hall x (List.mem_cons_of_mem e hx)
      have h3 : t.any (fun e => nameEq e.1 k) ≠ true := by
        intro hc
        rcases List.any_eq_true.mp hc with ⟨x, hx, hpx⟩
        exact absurd (h2 x hx) (by simp [hpx])
      simpa [headerGet_cons, h1] using ih h3 h2

/-- Two names each case-insensitively equal to a third are case-insensitively
equal to the same names. -/
theorem nameEq_contra (a b k : Str) (h1 : nameEq a b = true) (h2 : nameEq b k = false) :
    nameEq a k = false := by
  rw [nameEq_true_iff] at h1
  rw [nameEq_false_iff] at h2 ⊢
  rw [h1]
  exact h2


/-- Headers.get ignores entries appended after a match. -/
theorem headerGet_append_right (acc : List (Str × Str)) (k v : Str)
    (l2 : List (Str × Str)) (h : headerGet acc k = some v) :
    headerGet (acc ++ l2) k = some v := by
  induction acc with
  | nil => simp [headerGet, List.find?] at h
  | cons a t ih =>
    rw [List.cons_append, headerGet_cons]
    rw [headerGet_cons] at h
    by_cases hak : nameEq a.1 k = true
    · rw [if_pos hak] at h ⊢
      exact h
    · rw [if_neg hak] at h ⊢
      exact ih h

/-- The value-combining map of Headers.append for a name that does not match k
case-insensitively keeps the value Headers.get returns for k. -/
theorem headerGet_map_append_other (t : List (Str × Str)) (k v e1 e2 : Str)
    (hne : nameEq e1 k = false) (h : headerGet t k = some v) :
    headerGet (t.map (fun e =>
      if nameEq e.1 e1 = true then (e.1, e.2 ++ ", ".data ++ e2) else e)) k = some v := by
  induction t with
  | nil => simp [headerGet, List.find?] at h
  | cons a t ih =>
    rw [headerGet_cons] at h
    rw [List.map_cons]
    by_cases ha1 : nameEq a.1 e1 = true
    · rw [if_pos ha1]
      by_cases hak : nameEq a.1 k = true
      · exfalso
        have he1k : nameEq e1 k = true := by
          rw [nameEq_true_iff] at ha1 hak ⊢
          rw [← ha1]
          exact hak
        rw [he1k] at hne
        cases hne
      · rw [if_neg hak] at h
        rw [headerGet_cons]
        simp only []
        rw [if_neg hak]
        exact ih h
    · rw [if_neg ha1, headerGet_cons]
      by_cases hak : nameEq a.1 k = true
      · rw [if_pos hak] at h ⊢
        exact h
      · rw [if_neg hak] at h ⊢
        exact ih h

/-- Headers.append for a name that does not match k case-insensitively keeps
the value Headers.get returns for k. -/
theorem headerGet_headerAppend_other (acc : List (Str × Str)) (k v e1 e2 : Str)
    (hne : nameEq e1 k = false) (h : headerGet acc k = some v) :
    headerGet (headerAppend acc e1 e2) k = some v := by
  unfold headerAppend
  by_cases hc : acc.any (fun e => nameEq e.1 e1) = true
  · rw [if_pos hc]
    exact headerGet_map_append_other acc k v e1 e2 hne h
  · rw [if_neg hc]
    exact headerGet_append_right acc k v [(e1, e2)] h

/-- Folding Headers.append over entries whose names all miss k
case-insensitively keeps the value Headers.get returns for k. -/
theorem headerGet_foldAppend (k v : Str) (t : List (Str × Str)) :
    ∀ acc, (∀ e ∈ t, nameEq e.1 k = false) → headerGet acc k = some v →
      headerGet (t.foldl (fun acc e => headerAppend acc e.1 e.2) acc) k = some v := by
  induction t with
  | nil =>
    intro acc _ h
    exact h
  | cons e t ih =>
    intro acc hall h
    rw [List.foldl_cons]
    exact ih (headerAppend acc e.1 e.2)
      (fun x hx => hall x (List.mem_cons_of_mem e hx))
      (headerGet_headerAppend_other acc k v e.1 e.2 (hall e (List.mem_cons_self e t)) h)

/-- Assigning a key that misses k case-insensitively into an object whose
first entry is (k, v) keeps that first entry and keeps the remaining keys'
case-insensitive misses of k. -/
theorem objSet_cons_inv (k v e1 e2 : Str) (r : List (Str × Str))
    (hne : nameEq e1 k = false) (hr : ∀ x ∈ r, nameEq x.1 k = false) :
    ∃ r2, objSet ((k, v) :: r) e1 e2 = (k, v) :: r2 ∧ ∀ x ∈ r2, nameEq x.1 k = false := by
  have hk1 : (k == e1) = false := by
    by_contra hc
    simp only [Bool.not_eq_false, beq_iff_eq] at hc
    subst hc
    rw [nameEq_refl] at hne
    cases hne
  unfold objSet
  by_cases hc : ((k, v) :: r).any (fun e => e.1 == e1) = true
  · rw [if_pos hc]
    refine ⟨r.map (fun e => if e.1 == e1 then (e1, e2) else e), ?_, ?_⟩
    · rw [List.map_cons]
      simp only []
      rw [if_neg (by simp [hk1])]
    · intro x hx
      rcases List.mem_map.mp hx with ⟨y, hy, rfl⟩
      by_cases hy1 : (y.1 == e1) = true
      · rw [if_pos hy1]
        exact hne
      · rw [if_neg hy1]
        exact hr y hy
  · rw [if_neg hc]
    refine ⟨r ++ [(e1, e2)], by rw [List.cons_append], ?_⟩
    intro x hx
    rcases List.mem_append.mp hx with hx | hx
    · exact hr x hx
    · rcases List.mem_singleton.mp hx with rfl
      exact hne

/-- Merging an object whose keys all miss k case-insensitively over a base
object headed by (k, v) keeps that head entry and the misses. -/
theorem objMerge_cons_inv (k v : Str) (h : List (Str × Str)) :
    ∀ r, (∀ e ∈ h, nameEq e.1 k = false) → (∀ x ∈ r, nameEq x.1 k = false) →
      ∃ r2, objMerge ((k, v) :: r) h = (k, v) :: r2 ∧ ∀ x ∈ r2, nameEq x.1 k = false := by
  induction h with
  | nil =>
    intro r _ hr
    exact ⟨r, rfl, hr⟩
  | cons e t ih =>
    intro r hall hr
    rcases objSet_cons_inv k v e.1 e.2 r (hall e (List.mem_cons_self e t)) hr with
      ⟨r1, heq, hr1⟩
    rw [show objMerge ((k, v) :: r) (e :: t) = objMerge (objSet ((k, v) :: r) e.1 e.2) t from rfl,
      heq]
    exact ih r1 (fun x hx => hall x (List.mem_cons_of_mem e hx)) hr1

/-- Assigning key k into an object headed by (k, w) whose remaining keys miss
k case-insensitively replaces the head value and nothing else. -/
theorem objSet_head_hit (k w v : Str) (r : List (Str × Str))
    (hr : ∀ x ∈ r, nameEq x.1 k = false) :
    objSet ((k, w) :: r) k v = (k, v) :: r := by
  unfold objSet
  have hkk : (k == k) = true := by simp
  have hany : ((k, w) :: r).any (fun e => e.1 == k) = true :=
    List.any_eq_true.mpr ⟨(k, w), List.mem_cons_self _ _, hkk⟩
  rw [if_pos hany, List.map_cons]
  simp only []
  rw [if_pos hkk]
  have hmap : r.map (fun e => if e.1 == k then (k, v) else e) = r := by
    have hid : ∀ e ∈ r, (if e.1 == k then (k, v) else e) = id e := by
      intro x hx
      have : (x.1 == k) = false := by
        by_contra hc
        simp only [Bool.not_eq_false, beq_iff_eq] at hc
        have := hr x hx
        rw [hc, nameEq_refl] at this
        cases this
      rw [if_neg (by simp [this])]
      rfl
    rw [List.map_congr_left hid, List.map_id]
  rw [hmap]

/-- objMerge distributes over list append. -/
theorem objMerge_append (base : List (Str × Str)) (l1 l2 : List (Str × Str)) :
    objMerge base (l1 ++ l2) = objMerge (objMerge base l1) l2 := by
  induction l1 generalizing base with
  | nil => rfl
  | cons e t ih =>
    rw [List.cons_append]
    exact ih (objSet base e.1 e.2)

/-- Headers.get of k on a Headers object built from an init list headed by
(k, v) whose remaining names miss k case-insensitively is v. -/
theorem headerGet_headersOf_head (k v : Str) (r : List (Str × Str))
    (hr : ∀ x ∈ r, nameEq x.1 k = false) :
    headerGet (headersOf ((k, v) :: r)) k = some v := by
  unfold headersOf
  rw [List.foldl_cons]
  refine headerGet_foldAppend k v r _ hr ?_
  have happ : headerAppend [] k v = [(k, v)] := rfl
  rw [happ, headerGet_cons]
  simp only []
  rw [if_pos (nameEq_refl k)]

/-- C2 (amended): the resolved headers always contain a Content-Type entry; in
the object-spread variant of handleHeaders (src/src/SimpleHttpService.ts) the
default application/json appears when the caller supplied no header whose name
matches Content-Type case-insensitively, and a caller-supplied entry with the
exact name Content-Type wins over the default; in the Headers.set variant
(src/unnamed/part_000) the default application/json is the resolved value for
every caller-supplied header mapping, overwriting any caller value. -/
theorem c2_content_type_policy :
    (∀ h, headerGet (handleHeadersSet h) ctName = some ctJson)
    ∧ (∀ h : List (Str × Str), (∀ e ∈ h, nameEq e.1 ctName = false) →
        headerGet (handleHeadersSpread (some h)) ctName = some ctJson)
    ∧ (∀ (h1 h2 : List (Str × Str)) (v : Str),
        (∀ e ∈ h1, nameEq e.1 ctName = false) →
        (∀ e ∈ h2, nameEq e.1 ctName = false) →
        headerGet (handleHeadersSpread (some (h1 ++ (ctName, v) :: h2))) ctName = some v) := by
  refine ⟨fun h => headerGet_set _ _ _, fun h hall => ?_, fun h1 h2 v hall1 hall2 => ?_⟩
  · unfold handleHeadersSpread
    rcases objMerge_cons_inv ctName ctJson h [] hall
        (fun x hx => absurd hx (List.not_mem_nil x)) with ⟨r2, heq, hr2⟩
    rw [show (some h).getD ([] : List (Str × Str)) = h from rfl, heq]
    exact headerGet_headersOf_head ctName ctJson r2 hr2
  · unfold handleHeadersSpread
    rw [show (some (h1 ++ (ctName, v) :: h2)).getD ([] : List (Str × Str))
        = h1 ++ (ctName, v) :: h2 from rfl]
    rw [objMerge_append]
    rcases objMerge_cons_inv ctName ctJson h1 [] hall1
        (fun x hx => absurd hx (List.not_mem_nil x)) with ⟨r1, heq1, hr1⟩
    rw [heq1]
    rw [show objMerge ((ctName, ctJson) :: r1) ((ctName, v) :: h2)
        = objMerge (objSet ((ctName, ctJson) :: r1) ctName v) h2 from rfl]
    rw [objSet_head_hit ctName ctJson v r1 hr1]
    rcases objMerge_cons_inv ctName v h2 r1 hall2 hr1 with ⟨r2, heq2, hr2⟩
    rw [heq2]
    exact headerGet_headersOf_head ctName v r2 hr2

/-- Witness for C2's amended theorem at concrete header mappings. -/
theorem c2_content_type_policy_witness :
    headerGet (handleHeadersSet (some [("X-Custom".data, "1".data)])) ctName = some ctJson
    ∧ headerGet (handleHeadersSpread (some [("X-Custom".data, "1".data)])) ctName = some ctJson
    ∧ headerGet (handleHeadersSpread (some [(ctName, "text/plain".data)])) ctName
        = some ("text/plain".data) :=
  ⟨c2_content_type_policy.1 (some [("X-Custom".data, "1".data)]),
   c2_content_type_policy.2.1 [("X-Custom".data, "1".data)] (by decide),
   c2_content_type_policy.2.2 [] [] ("text/plain".data)
     (fun e he => absurd he (List.not_mem_nil e))
     (fun e he => absurd he (List.not_mem_nil e))⟩

/-- Counterexample to C2 as stated: in handleHeaders of src/unnamed/part_000
a caller-supplied Content-Type of text/plain is overwritten by the default
application/json, so the caller's value is not the one present. -/
theorem c2_counterexample :
    headerGet (handleHeadersSet (some [(ctName, "text/plain".data)])) ctName = some ctJson
    ∧ some ctJson ≠ some ("text/plain".data) := by
  constructor
  · rfl
  · decide

/-- getLast? looks only at a nonempty right append operand. -/
theorem getLast?_append_ne_nil (l1 l2 : Str) (h : l2 ≠ []) :
    (l1 ++ l2).getLast? = l2.getLast? := by
  rw [List.getLast?_append]
  cases hy : l2.getLast? with
  | none => exact absurd (by simpa using hy) h
  | some y => simp

/-- getLast? of a list with one element appended. -/
theorem getLast?_snoc (l : Str) (a : Char) : (l ++ [a]).getLast? = some a := by
  rw [getLast?_append_ne_nil l [a] (by simp)]
  rfl

/-- Characterization of _removeSlashes as nested conditionals. -/
theorem removeSlashes_eq (p : Str) :
    removeSlashes p =
      (if (if p.getLast? = some '/' then p.dropLast else p).head? = some '/'
       then (if p.getLast? = some '/' then p.dropLast else p).tail
       else (if p.getLast? = some '/' then p.dropLast else p)) := rfl

/-- Normalization removes exactly the decoration: for a core with no leading
or trailing separator, _removeSlashes of the core wrapped in at most one
leading and one trailing separator gives back the core. -/
theorem removeSlashes_decorate (b : Str) (l t : Bool)
    (hne : b ≠ []) (hh : b.head? ≠ some '/') (hl : b.getLast? ≠ some '/') :
    removeSlashes (decorate l t b) = b := by
  obtain ⟨x, xs, rfl⟩ : ∃ x xs, b = x :: xs := by
    cases b with
    | nil => exact absurd rfl hne
    | cons x xs => exact ⟨x, xs, rfl⟩
  have hx : ¬ (x :: xs).head? = some '/' := hh
  cases l <;> cases t
  · have e1 : decorate false false (x :: xs) = x :: xs := by simp [decorate]
    rw [e1, removeSlashes_eq, if_neg hl, if_neg hx]
  · have e1 : decorate false true (x :: xs) = (x :: xs) ++ ['/'] := by simp [decorate]
    rw [e1, removeSlashes_eq, if_pos (getLast?_snoc (x :: xs) '/'),
      List.dropLast_concat, if_neg hx]
  · have e1 : decorate true false (x :: xs) = '/' :: x :: xs := by simp [decorate]
    rw [e1, removeSlashes_eq,
      if_neg (show ¬ ('/' :: x :: xs).getLast? = some '/' by
        rw [List.getLast?_cons_cons]; exact hl),
      if_pos (show ('/' :: x :: xs).head? = some '/' from rfl)]
    rfl
  · have e1 : decorate true true (x :: xs) = ('/' :: x :: xs) ++ ['/'] := by simp [decorate]
    rw [e1, removeSlashes_eq, if_pos (getLast?_snoc ('/' :: x :: xs) '/'),
      List.dropLast_concat, if_pos (show ('/' :: x :: xs).head? = some '/' from rfl)]
    rfl

/-- Prefixing a separator to a nonempty string that does not start with one
keeps separators non-adjacent. -/
theorem noDS_slash_cons (e : Str) (hne : e ≠ []) (hh : e.head? ≠ some '/')
    (h : noDS e = true) : noDS ('/' :: e) = true := by
  cases e with
  | nil => exact absurd rfl hne
  | cons x xs =>
    have hx : ¬ x = '/' := by
      intro hc
      subst hc
      exact hh rfl
    rw [show noDS ('/' :: x :: xs)
        = ((!(decide ('/' = '/') && decide (x = '/'))) && noDS (x :: xs)) from rfl]
    simp [hx, h]

/-- Joining two separator-free-decorated cores with a single separator keeps
separators non-adjacent. -/
theorem noDS_join : ∀ (b : Str), noDS b = true → b.getLast? ≠ some '/' →
    ∀ (e : Str), e ≠ [] → e.head? ≠ some '/' → noDS e = true →
      noDS (b ++ '/' :: e) = true
  | [], _, _, e, hee, heh, he => by
    simpa using noDS_slash_cons e hee heh he
  | [a], _, hbl, e, hee, heh, he => by
    have ha : ¬ a = '/' := by
      intro hc
      exact hbl (by rw [hc]; rfl)
    have h2 := noDS_slash_cons e hee heh he
    simp only [List.cons_append, List.nil_append]
    rw [show noDS (a :: '/' :: e)
        = ((!(decide (a = '/') && decide ('/' = '/'))) && noDS ('/' :: e)) from rfl]
    simp [ha, h2]
  | a :: a2 :: t2, hb, hbl, e, hee, heh, he => by
    have hb' := hb
    rw [show noDS (a :: a2 :: t2)
        = ((!(decide (a = '/') && decide (a2 = '/'))) && noDS (a2 :: t2)) from rfl,
      Bool.and_eq_true] at hb'
    obtain ⟨hb1, hb2⟩ := hb'
    have hbl2 : (a2 :: t2).getLast? ≠ some '/' := by
      rw [List.getLast?_cons_cons] at hbl
      exact hbl
    have hrec := noDS_join (a2 :: t2) hb2 hbl2 e hee heh he
    simp only [List.cons_append]
    rw [show noDS (a :: a2 :: (t2 ++ '/' :: e))
        = ((!(decide (a = '/') && decide (a2 = '/'))) && noDS (a2 :: (t2 ++ '/' :: e))) from rfl,
      Bool.and_eq_true]
    exact ⟨hb1, by simpa using hrec⟩

/-- Unfolding equation for fetchUrlV0 on an explicit configuration. -/
theorem fetchUrlV0_eq (bu be : Option Str) (ep : Str) :
    fetchUrlV0 ⟨bu, be⟩ ep
      = urlResolve bu (removeSlashes (be.getD []) ++ '/' :: removeSlashes ep) := rfl

/-- Unfolding equation for urlResolve on a present base. -/
theorem urlResolve_some (b rel : Str) :
    urlResolve (some b) rel
      = .ok (stripTrailing b ++ (if rel.head? = some '/' then rel else '/' :: rel)) := rfl

/-- C1 (amended): when the configured base endpoint and the call endpoint each
consist of a well-formed core (nonempty, not starting or ending with a
separator, without adjacent separators) wrapped in at most one leading and at
most one trailing separator, the URL composed by fetch of part_000 is the
origin followed by one separator, the base-endpoint core, one separator and
the endpoint core; the part after the origin has no adjacent separators, no
leading separator after the initial one, and no trailing separator, so every
path segment is nonempty and exactly one separator stands between the parts.
Without a configured base endpoint the composed URL is the origin, one
separator and the endpoint core. -/
theorem c1_url_composition (origin b e : Str) (l1 t1 l2 t2 : Bool)
    (hb1 : b ≠ []) (hb2 : b.head? ≠ some '/') (hb3 : b.getLast? ≠ some '/')
    (hb4 : noDS b = true)
    (he1 : e ≠ []) (he2 : e.head? ≠ some '/') (he3 : e.getLast? ≠ some '/')
    (he4 : noDS e = true) :
    fetchUrlV0 ⟨some origin, some (decorate l1 t1 b)⟩ (decorate l2 t2 e)
      = .ok (stripTrailing origin ++ '/' :: (b ++ '/' :: e))
    ∧ fetchUrlV0 ⟨some origin, none⟩ (decorate l2 t2 e)
      = .ok (stripTrailing origin ++ '/' :: e)
    ∧ noDS (b ++ '/' :: e) = true
    ∧ (b ++ '/' :: e).head? ≠ some '/'
    ∧ (b ++ '/' :: e).getLast? ≠ some '/' := by
  have hrb := removeSlashes_decorate b l1 t1 hb1 hb2 hb3
  have hre := removeSlashes_decorate e l2 t2 he1 he2 he3
  have hhead : (b ++ '/' :: e).head? ≠ some '/' := by
    cases b with
    | nil => exact absurd rfl hb1
    | cons x xs =>
      rw [List.cons_append]
      exact hb2
  have hlast : (b ++ '/' :: e).getLast? ≠ some '/' := by
    rw [getLast?_append_ne_nil b ('/' :: e) (List.cons_ne_nil '/' e)]
    cases e with
    | nil => exact absurd rfl he1
    | cons y ys =>
      rw [List.getLast?_cons_cons]
      exact he3
  refine ⟨?_, ?_, noDS_join b hb4 hb3 e he1 he2 he4, hhead, hlast⟩
  · rw [fetchUrlV0_eq, Option.getD_some, hrb, hre, urlResolve_some, if_neg hhead]
  · rw [fetchUrlV0_eq, Option.getD_none, hre,
      show removeSlashes [] = ([] : Str) from rfl, List.nil_append, urlResolve_some,
      if_pos (show ('/' :: e).head? = some '/' from rfl)]

/-- Witness for C1's amended theorem at the documented example configuration. -/
theorem c1_url_composition_witness :
    fetchUrlV0 ⟨some "http://localhost:3001".data, some (decorate true false "api/v1".data)⟩
        (decorate true false "project/10".data)
      = .ok (stripTrailing "http://localhost:3001".data
          ++ '/' :: ("api/v1".data ++ '/' :: "project/10".data))
    ∧ fetchUrlV0 ⟨some "http://localhost:3001".data, none⟩ (decorate true false "project/10".data)
      = .ok (stripTrailing "http://localhost:3001".data ++ '/' :: "project/10".data)
    ∧ noDS ("api/v1".data ++ '/' :: "project/10".data) = true
    ∧ ("api/v1".data ++ '/' :: "project/10".data).head? ≠ some '/'
    ∧ ("api/v1".data ++ '/' :: "project/10".data).getLast? ≠ some '/' :=
  c1_url_composition "http://localhost:3001".data "api/v1".data "project/10".data
    true false true false
    (by decide) (by decide) (by decide) (by decide)
    (by decide) (by decide) (by decide) (by decide)

/-- Counterexample to C1 as stated: the call endpoint consisting of one bare
separator (used by the repository's own README for getProjects) yields a
composed URL whose final path segment is empty (the URL ends in a separator),
and the call endpoint with two leading separators yields a composed URL with
two adjacent separators, an empty path segment between base endpoint and
endpoint. -/
theorem c1_url_composition_counterexample :
    (fetchUrlV0 ⟨some "http://localhost:3001".data, some "/projects".data⟩ "/".data
        = .ok ("http://localhost:3001".data ++ '/' :: "projects/".data)
      ∧ ("projects/".data).getLast? = some '/')
    ∧ (fetchUrlV0 ⟨some "http://localhost:3001".data, some "api".data⟩ "//a".data
        = .ok ("http://localhost:3001".data ++ '/' :: "api//a".data)
      ∧ noDS ("api//a".data) = false) := by
  exact ⟨⟨rfl, rfl⟩, ⟨rfl, rfl⟩⟩

/-- One-step unfolding of escStr. -/
theorem escStr_cons (c : Char) (t : Str) : escStr (c :: t) = escChar c ++ escStr t := rfl

/-- Escaping never shortens a string. -/
theorem length_le_escStr (s : Str) : s.length ≤ (escStr s).length := by
  induction s with
  | nil => exact Nat.le_refl 0
  | cons c t ih =>
    rw [escStr_cons, List.length_append, List.length_cons]
    have hc : 1 ≤ (escChar c).length := by
      unfold escChar
      by_cases h : (c = '"' || c = '\\') = true <;> simp [h]
    omega

/-- JSON-stringifying a string never returns the string itself: the result is
two characters longer than the escaped payload. -/
theorem quoteStr_ne (s : Str) : quoteStr s ≠ s := by
  intro hc
  have hlen : (quoteStr s).length = s.length := congrArg List.length hc
  rw [quoteStr, List.length_cons, List.length_append, List.length_cons,
    List.length_nil] at hlen
  have := length_le_escStr s
  omega

/-- C3 (amended): every present body, object or string alike, is transmitted
as its JSON.stringify serialization by fetch of part_000; for a string body
this is the string wrapped in quotes with escaping, which is never the string
itself, so string bodies are re-encoded rather than passed through. -/
theorem c3_body_serialization :
    (∀ (cfg : Config) (ep : Str) (init : ReqInit) (r : Request),
      fetchRequestV0 (some cfg) ep init = .ok r → r.body = init.body.map stringifyVal)
    ∧ (∀ s : Str, stringifyVal (.vstr s) = quoteStr s)
    ∧ (∀ s : Str, quoteStr s ≠ s) := by
  refine ⟨fun cfg ep init r h => ?_, fun s => rfl, quoteStr_ne⟩
  rw [show fetchRequestV0 (some cfg) ep init
      = Except.map (fun u => Request.mk u init.method (handleHeadersSet init.headers)
          (init.body.map stringifyVal)) (fetchUrlV0 cfg ep) from rfl] at h
  cases hu : fetchUrlV0 cfg ep with
  | error u =>
    rw [hu] at h
    simp [Except.map] at h
  | ok u =>
    rw [hu] at h
    simp only [Except.map] at h
    injection h with h2
    rw [← h2]

/-- Witness for C3's amended theorem at a concrete string body. -/
theorem c3_body_serialization_witness :
    Request.body ⟨"http://x/items".data, some "POST".data, [(ctName, ctJson)],
        some (quoteStr "abc".data)⟩
      = (some (Jv.vstr "abc".data)).map stringifyVal
    ∧ quoteStr "abc".data ≠ "abc".data :=
  ⟨c3_body_serialization.1 ⟨some "http://x".data, none⟩ "items".data
      ⟨some "POST".data, none, some (Jv.vstr "abc".data)⟩
      ⟨"http://x/items".data, some "POST".data, [(ctName, ctJson)],
        some (quoteStr "abc".data)⟩ rfl,
   c3_body_serialization.2.2 "abc".data⟩

/-- Counterexample to C3 as stated: the string body abc is transmitted as the
five characters of its JSON text, wrapped in quotes, not as the string
unmodified. -/
theorem c3_counterexample :
    (fetchRequestV0 (some ⟨some "http://x".data, none⟩) "items".data
        ⟨some "POST".data, none, some (Jv.vstr "abc".data)⟩).map Request.body
      = .ok (some ("\"abc\"".data))
    ∧ some ("\"abc\"".data) ≠ some ("abc".data) := by
  constructor
  · rfl
  · decide

/-- C4 (amended): a non-2xx response makes the part_000 call fail with the
raw Response thrown, so both status and body are retrievable (the failure
value determines the response); the root-variant call also fails, but its
normalized failure value no longer carries the status. -/
theorem c4_nonok_failure (r r2 : Response)
    (h : respOk r = false) (h2 : respOk r2 = false) :
    fetchOutcomeV0 r = .error (.vresp r.status r.bodyText)
    ∧ (fetchOutcomeV0 r = fetchOutcomeV0 r2 → r = r2) := by
  have e1 : fetchOutcomeV0 r = .error (.vresp r.status r.bodyText) := by
    unfold fetchOutcomeV0 handleResponseV0
    rw [h]
    simp
  have e2 : fetchOutcomeV0 r2 = .error (.vresp r2.status r2.bodyText) := by
    unfold fetchOutcomeV0 handleResponseV0
    rw [h2]
    simp
  refine ⟨e1, fun heq => ?_⟩
  rw [e1, e2] at heq
  simp only [Except.error.injEq, Jv.vresp.injEq] at heq
  cases r
  cases r2
  simp_all

/-- Witness for C4's amended theorem at concrete non-2xx responses. -/
theorem c4_nonok_failure_witness :
    respOk ⟨404, "nope".data⟩ = false
    ∧ fetchOutcomeV0 ⟨404, "nope".data⟩ = .error (.vresp 404 ("nope".data))
    ∧ (fetchOutcomeV0 ⟨404, "nope".data⟩ = fetchOutcomeV0 ⟨500, "x".data⟩ →
        (⟨404, "nope".data⟩ : Response) = ⟨500, "x".data⟩) :=
  ⟨rfl,
   (c4_nonok_failure ⟨404, "nope".data⟩ ⟨500, "x".data⟩ rfl rfl).1,
   (c4_nonok_failure ⟨404, "nope".data⟩ ⟨500, "x".data⟩ rfl rfl).2⟩

/-- Counterexample to C4 as stated: in the root variant, a 404 and a 500
response with the same JSON body produce the same failure value (the re-parsed
body), so the status is not retrievable from the failure. -/
theorem c4_counterexample :
    fetchOutcomeRoot ⟨404, "\x7b\x7d".data⟩ = .error (.vobj [])
    ∧ fetchOutcomeRoot ⟨500, "\x7b\x7d".data⟩ = .error (.vobj [])
    ∧ (404 : Nat) ≠ 500 := by
  refine ⟨rfl, rfl, by decide⟩

/-- C5 (amended): in part_000 a 2xx response whose body is not valid JSON
makes the call fail with exactly the SyntaxError of JSON.parse, propagated
unmodified; the root variant instead passes that failure through handleErrors,
which replaces it with a different error. -/
theorem c5_decode_failure (r : Response) (hok : respOk r = true)
    (hparse : jsonParse r.bodyText = none) :
    fetchOutcomeV0 r = .error (.verr (jsonErrMsg r.bodyText)) := by
  unfold fetchOutcomeV0 handleResponseV0
  rw [hok, hparse]
  simp

/-- Witness for C5's amended theorem at a concrete invalid-JSON 2xx
response. -/
theorem c5_decode_failure_witness :
    respOk ⟨200, "oops".data⟩ = true
    ∧ jsonParse "oops".data = none
    ∧ fetchOutcomeV0 ⟨200, "oops".data⟩ = .error (.verr (jsonErrMsg "oops".data)) :=
  ⟨rfl, rfl, c5_decode_failure ⟨200, "oops".data⟩ rfl rfl⟩

/-- Counterexample to C5 as stated: in the root variant a 2xx response with
the invalid JSON body NOT JSON is not propagated as its own decode failure:
handleErrors re-parses the SyntaxError's message and throws a second, distinct
SyntaxError, masking the original. -/
theorem c5_counterexample :
    fetchOutcomeRoot ⟨200, "NOT JSON".data⟩
      = .error (.verr (jsonErrMsg (jsonErrMsg "NOT JSON".data)))
    ∧ Jv.verr (jsonErrMsg (jsonErrMsg "NOT JSON".data))
      ≠ Jv.verr (jsonErrMsg "NOT JSON".data) := by
  constructor
  · rfl
  · simp only [ne_eq, Jv.verr.injEq]
    decide

/-- C6 (code bug): with no configuration object, the property access in fetch
of part_000 throws a TypeError; with a configuration lacking baseUrl, the URL
constructor is called with an undefined base and throws; and in the root
variant the undefined base URL is coerced into the literal text undefined at
the front of the request path.  In no variant does the request resolve the
endpoint against the calling environment's own origin, contradicting the
repository's same-domain documentation. -/
theorem c6_same_origin_broken :
    fetchRequestV0 none "/project/10".data emptyInit = .error ()
    ∧ fetchUrlV0 ⟨none, some "api/v3".data⟩ "/project/10".data = .error ()
    ∧ rootFetchUrl none "/project/10".data = "undefined/project/10".data
    ∧ rootFetchUrl none "/project/10".data ≠ "/project/10".data := by
  refine ⟨rfl, rfl, rfl, by decide⟩

/-- C7 (amended): every verb method of part_000 fixes its HTTP method only as
a default that caller options may override; when the caller's options carry no
method, the issued request's method is the verb's, and a call like
delete of /items/5 with no options issues its single request with method
DELETE and no body. -/
theorem c7_verb_methods :
    (∀ (m : Str) (cfg : Config) (ep : Str) (init : ReqInit) (r : Request),
      init.method = none → verbRequestV0 m (some cfg) ep init = .ok r →
        r.method = some m)
    ∧ (∀ (cfg : Config) (ep : Str) (r : Request),
      deleteV0 (some cfg) ep emptyInit = .ok r →
        r.method = some ("DELETE".data) ∧ r.body = none) := by
  constructor
  · intro m cfg ep init r hm h
    rw [show verbRequestV0 m (some cfg) ep init
        = Except.map (fun u => Request.mk u (some (init.method.getD m))
            (handleHeadersSet init.headers) (init.body.map stringifyVal))
            (fetchUrlV0 cfg ep) from rfl] at h
    cases hu : fetchUrlV0 cfg ep with
    | error u =>
      rw [hu] at h
      simp [Except.map] at h
    | ok u =>
      rw [hu] at h
      simp only [Except.map] at h
      injection h with h2
      rw [← h2, hm]
      rfl
  · intro cfg ep r h
    rw [show deleteV0 (some cfg) ep emptyInit
        = Except.map (fun u => Request.mk u (some ("DELETE".data))
            (handleHeadersSet none) none) (fetchUrlV0 cfg ep) from rfl] at h
    cases hu : fetchUrlV0 cfg ep with
    | error u =>
      rw [hu] at h
      simp [Except.map] at h
    | ok u =>
      rw [hu] at h
      simp only [Except.map] at h
      injection h with h2
      rw [← h2]
      exact ⟨rfl, rfl⟩

/-- Witness for C7's amended theorem at concrete calls. -/
theorem c7_verb_methods_witness :
    Request.method ⟨"http://x/items".data, some "GET".data, [(ctName, ctJson)], none⟩
      = some ("GET".data)
    ∧ Request.method ⟨"http://x/items/5".data, some "DELETE".data, [(ctName, ctJson)], none⟩
        = some ("DELETE".data)
    ∧ Request.body ⟨"http://x/items/5".data, some "DELETE".data, [(ctName, ctJson)], none⟩
        = none :=
  ⟨c7_verb_methods.1 "GET".data ⟨some "http://x".data, none⟩ "items".data emptyInit
      ⟨"http://x/items".data, some "GET".data, [(ctName, ctJson)], none⟩ rfl rfl,
   (c7_verb_methods.2 ⟨some "http://x".data, none⟩ "/items/5".data
      ⟨"http://x/items/5".data, some "DELETE".data, [(ctName, ctJson)], none⟩ rfl).1,
   (c7_verb_methods.2 ⟨some "http://x".data, none⟩ "/items/5".data
      ⟨"http://x/items/5".data, some "DELETE".data, [(ctName, ctJson)], none⟩ rfl).2⟩

/-- Counterexample to C7 as stated: a caller-supplied method of POST in the
options of delete overrides the verb's method, so the issued request is a POST
even though delete was called. -/
theorem c7_counterexample :
    (deleteV0 (some ⟨some "http://x".data, none⟩) "/items/5".data
        ⟨some "POST".data, none, none⟩).map Request.method
      = .ok (some ("POST".data))
    ∧ some ("POST".data) ≠ some ("DELETE".data) := by
  constructor
  · rfl
  · decide
